import Mathlib

/-!
Shallow embedding of tensap/tools/utils.py: the four helpers
fast_intersect, fast_setdiff, integer2baseb and baseb2integer,
together with proofs of the specified properties.

Integers are modelled as Int (numpy integer arrays), digit matrices as
lists of rows, and numpy exceptions (ValueError / OverflowError raised by
np.unravel_index, np.ravel_multi_index, np.fliplr or int(...)) as
Option.none.
-/

/-- Keep the entries of a list that are equal to their immediate successor.
This is the model of the numpy idiom in fast_intersect:
mask = aux[1:] == aux[:-1]; return aux[:-1][mask]. -/
def adjEqKeep : List Int → List Int
  | x :: y :: rest => if x = y then x :: adjEqKeep (y :: rest) else adjEqKeep (y :: rest)
  | _ => []

/-- Model of fast_intersect(a, b): concatenate a and b, sort ascending
(aux.sort()), and keep each element equal to its successor. -/
def fast_intersect (a b : List Int) : List Int :=
  adjEqKeep ((a ++ b).mergeSort (fun x y => decide (x ≤ y)))

/-- Model of fast_setdiff(a, b) = a[~np.isin(a, b, assume_unique=True)].
np.isin with assume_unique=True agrees with exact membership whenever both
inputs are free of internal duplicates, which is the documented
precondition of the function. -/
def fast_setdiff (a b : List Int) : List Int :=
  a.filter (fun x => !(b.contains x))

/-- Model of np.unravel_index(x, np.full(d, b), order="F") for one flat
index x: coordinate k of the d-dimensional grid of extent b, with the
first axis varying fastest, is x / b^k % b. np.unravel_index raises
ValueError when x is not in [0, b^d); validity is checked by the caller
integer2baseb below. -/
def unravel_coords (x : Int) (b d : Nat) : List Nat :=
  (List.range d).map (fun k => x.toNat / b ^ k % b)

/-- One row of the result of integer2baseb: the coordinates produced by
np.unravel_index for x, reversed by the final np.fliplr so that the most
significant digit comes first. -/
def intDigits (x : Int) (b d : Nat) : List Int :=
  ((unravel_coords x b d).map (fun c : Nat => (c : Int))).reverse

/-- Body of integer2baseb once the dimension d is fixed.
none models the numpy exceptions: for d = 0 the intermediate array is
1-dimensional and np.fliplr raises ValueError; an input outside
[0, b^d) makes np.unravel_index raise ValueError (b^d is the grid size
np.prod(np.full(d, b))). -/
def integer2baseb_core (i : List Int) (b d : Nat) : Option (List (List Int)) :=
  if d = 0 then none
  else if i.all (fun x => decide (0 ≤ x) && decide (x < (b : Int) ^ d)) then
    some (i.map (fun x => intDigits x b d))
  else none

/-- The dimension derived by integer2baseb when d is not supplied:
int(np.ceil(np.log(max(i) + 1) / np.log(b))) read in exact real
arithmetic, which is the ceiling base-b logarithm Nat.clog b (max+1) when
2 <= b. At max = 0 the floating-point computation is exact (np.log(1.0)
is exactly 0.0), so the model agrees with the code there. For b <= 1 the
code raises (division by log(1) = 0) or produces d = 0 (division by
log(0) = -inf), and Nat.clog then returns 0, which integer2baseb_core
turns into none, matching the raised exception. -/
def derived_dim (b : Nat) (m : Int) : Nat := Nat.clog b (m.toNat + 1)

/-- Model of integer2baseb(i, b, d). When d is None the code first takes
np.max(i), which raises on an empty input; a negative maximum makes
np.log return nan or -inf and int(...) raise, hence none. -/
def integer2baseb (i : List Int) (b : Nat) (d? : Option Nat) : Option (List (List Int)) :=
  match d? with
  | some d => integer2baseb_core i b d
  | none =>
    match i.max? with
    | none => none
    | some m => if m < 0 then none else integer2baseb_core i b (derived_dim b m)

/-- Flat index computed by np.ravel_multi_index(coords, np.full(d, b),
order="F"): with the first axis fastest, coords [c0, c1, ...] denote
c0 + b * (c1 + b * (...)). -/
def ravelF (b : Nat) : List Nat → Nat
  | [] => 0
  | c :: cs => c + b * ravelF b cs

/-- Model of baseb2integer(I0, b). The input is a digit matrix (list of
rows), left unchanged by np.atleast_2d. The code reverses each row
(np.fliplr), transposes, and calls np.ravel_multi_index, which raises
ValueError unless every row has the same length d (a rectangular matrix)
and every digit lies in [0, b-1]; none models that exception. -/
def baseb2integer (I0 : List (List Int)) (b : Nat) : Option (List Int) :=
  if I0.all (fun row =>
      decide (row.length = (I0.headD []).length) &&
      row.all (fun c => decide (0 ≤ c) && decide (c < (b : Int)))) then
    some (I0.map (fun row => (ravelF b (row.reverse.map Int.toNat) : Int)))
  else none

example : fast_setdiff [1, 3, 5, 7] [3, 5] = [1, 7] := by decide

/-! Helper lemmas about adjEqKeep: an element belongs to the output exactly
when it occurs at least twice in the (sorted) input, and on a sorted input
with all multiplicities at most two the output is strictly sorted. -/

theorem adjEqKeep_cons_cons (x y : Int) (rest : List Int) :
    adjEqKeep (x :: y :: rest) =
      if x = y then x :: adjEqKeep (y :: rest) else adjEqKeep (y :: rest) := rfl

theorem mem_adjEqKeep_cons {z x : Int} {t : List Int} (h : z ∈ adjEqKeep t) :
    z ∈ adjEqKeep (x :: t) := by
  cases t with
  | nil => simp [adjEqKeep] at h
  | cons y rest =>
    by_cases hxy : x = y <;> simp [adjEqKeep_cons_cons, hxy, h]

theorem two_le_count_of_mem_adjEqKeep {z : Int} :
    ∀ {l : List Int}, z ∈ adjEqKeep l → 2 ≤ l.count z := by
  intro l
  induction l with
  | nil => intro h; simp [adjEqKeep] at h
  | cons x t ih =>
    intro h
    cases t with
    | nil => simp [adjEqKeep] at h
    | cons y rest =>
      rw [adjEqKeep_cons_cons] at h
      by_cases hxy : x = y
      · rw [if_pos hxy] at h
        rcases List.mem_cons.mp h with hzx | hz
        · subst hzx; subst hxy
          simp [List.count_cons]
        · have h2 := ih hz
          calc 2 ≤ (y :: rest).count z := h2
            _ ≤ (x :: y :: rest).count z := List.count_le_count_cons z x _
      · rw [if_neg hxy] at h
        calc 2 ≤ (y :: rest).count z := ih h
          _ ≤ (x :: y :: rest).count z := List.count_le_count_cons z x _

theorem mem_adjEqKeep_of_two_le_count {z : Int} :
    ∀ {l : List Int}, l.Sorted (· ≤ ·) → 2 ≤ l.count z → z ∈ adjEqKeep l := by
  intro l
  induction l with
  | nil => intro _ h; simp at h
  | cons x t ih =>
    intro hs hc
    cases t with
    | nil =>
      rw [List.count_singleton] at hc
      split at hc <;> omega
    | cons y rest =>
      have hs' : (y :: rest).Sorted (· ≤ ·) := hs.of_cons
      by_cases hzx : z = x
      · have hcnt : 0 < (y :: rest).count z := by
          rw [List.count_cons] at hc
          split at hc <;> omega
        have hzmem : z ∈ y :: rest := List.count_pos_iff.mp hcnt
        have hyz : y ≤ z := by
          rcases List.mem_cons.mp hzmem with h | h
          · exact le_of_eq h.symm
          · exact List.rel_of_sorted_cons hs' z h
        have hxy : x = y :=
          le_antisymm (List.rel_of_sorted_cons hs y (List.mem_cons_self y rest))
            (hzx ▸ hyz)
        rw [adjEqKeep_cons_cons, if_pos hxy]
        exact hzx ▸ List.mem_cons_self x _
      · have hc' : 2 ≤ (y :: rest).count z := by
          rw [List.count_cons] at hc
          have : ¬(x == z) = true := by simp [hzx]; intro h; exact hzx h.symm
          simp [this] at hc
          omega
        exact mem_adjEqKeep_cons (ih hs' hc')

theorem adjEqKeep_sorted_lt :
    ∀ (l : List Int), l.Sorted (· ≤ ·) → (∀ z, l.count z ≤ 2) →
      (adjEqKeep l).Sorted (· < ·) := by
  intro l
  induction l with
  | nil => intro _ _; simp [adjEqKeep]
  | cons x t ih =>
    intro hs hcnt
    cases t with
    | nil => simp [adjEqKeep]
    | cons y rest =>
      have hs' := hs.of_cons
      have hcnt' : ∀ z, (y :: rest).count z ≤ 2 := fun z =>
        le_trans (List.count_le_count_cons z x _) (hcnt z)
      by_cases hxy : x = y
      · rw [adjEqKeep_cons_cons, if_pos hxy]
        rw [List.sorted_cons]
        refine ⟨?_, ih hs' hcnt'⟩
        intro z hz
        have h2 : 2 ≤ (y :: rest).count z := two_le_count_of_mem_adjEqKeep hz
        have hzx : z ≠ x := by
          intro hzxeq
          have h3 : (x :: y :: rest).count z = (y :: rest).count z + 1 := by
            rw [List.count_cons]
            simp [hzxeq]
          have := hcnt z
          omega
        have hzmem : z ∈ y :: rest := List.count_pos_iff.mp (by omega)
        exact lt_of_le_of_ne (List.rel_of_sorted_cons hs z hzmem) (Ne.symm hzx)
      · rw [adjEqKeep_cons_cons, if_neg hxy]
        exact ih hs' hcnt'
example : integer2baseb [5] 2 (some 3) = some [[1, 0, 1]] := by decide
example : baseb2integer [[1, 0, 1]] 2 = some [5] := by decide
example : integer2baseb [8] 2 (some 3) = none := by decide
example : baseb2integer [[2, 0]] 2 = none := by decide
example : integer2baseb [0] 1 (some 2) = some [[0, 0]] := by decide

/-! Helper lemmas about fast_intersect. -/

theorem count_mergeSort_append (A B : List Int) (z : Int) :
    ((A ++ B).mergeSort (fun x y => decide (x ≤ y))).count z = A.count z + B.count z := by
  rw [(List.mergeSort_perm (A ++ B) _).count_eq, List.count_append]

theorem fast_intersect_mem_iff (A B : List Int) (hA : A.Nodup) (hB : B.Nodup) (z : Int) :
    z ∈ fast_intersect A B ↔ z ∈ A ∧ z ∈ B := by
  have hA1 := List.nodup_iff_count_le_one.mp hA z
  have hB1 := List.nodup_iff_count_le_one.mp hB z
  unfold fast_intersect
  constructor
  · intro h
    have h2 := two_le_count_of_mem_adjEqKeep h
    rw [count_mergeSort_append] at h2
    exact ⟨List.count_pos_iff.mp (by omega), List.count_pos_iff.mp (by omega)⟩
  · rintro ⟨h1, h2⟩
    apply mem_adjEqKeep_of_two_le_count (List.sorted_mergeSort' _)
    rw [count_mergeSort_append]
    have hp1 := List.count_pos_iff.mpr h1
    have hp2 := List.count_pos_iff.mpr h2
    omega

theorem fast_intersect_sorted (A B : List Int) (hA : A.Nodup) (hB : B.Nodup) :
    (fast_intersect A B).Sorted (· < ·) := by
  apply adjEqKeep_sorted_lt _ (List.sorted_mergeSort' _)
  intro z
  rw [count_mergeSort_append]
  have := List.nodup_iff_count_le_one.mp hA z
  have := List.nodup_iff_count_le_one.mp hB z
  omega

theorem sorted_lt_eq_of_mem_iff {l₁ l₂ : List Int} (h₁ : l₁.Sorted (· < ·))
    (h₂ : l₂.Sorted (· < ·)) (hmem : ∀ z, z ∈ l₁ ↔ z ∈ l₂) : l₁ = l₂ := by
  have hn₁ : l₁.Nodup := h₁.imp (fun h => ne_of_lt h)
  have hn₂ : l₂.Nodup := h₂.imp (fun h => ne_of_lt h)
  have hp : List.Perm l₁ l₂ := by
    rw [List.perm_iff_count]
    intro z
    by_cases hz : z ∈ l₁
    · rw [List.count_eq_one_of_mem hn₁ hz, List.count_eq_one_of_mem hn₂ ((hmem z).mp hz)]
    · rw [List.count_eq_zero_of_not_mem hz,
        List.count_eq_zero_of_not_mem (fun h => hz ((hmem z).mpr h))]
  exact List.eq_of_perm_of_sorted hp (h₁.imp le_of_lt) (h₂.imp le_of_lt)

/-- Claim C2: for inputs each free of internal duplicates, fast_intersect
returns exactly the set intersection, in strictly ascending order (hence
with each common value exactly once); empty or disjoint inputs give []. -/
theorem fast_intersect_spec (A B : List Int) (hA : A.Nodup) (hB : B.Nodup) :
    (fast_intersect A B).Sorted (· < ·) ∧
    (∀ z, z ∈ fast_intersect A B ↔ z ∈ A ∧ z ∈ B) ∧
    (fast_intersect A B).Nodup ∧
    ((∀ z, ¬(z ∈ A ∧ z ∈ B)) → fast_intersect A B = []) := by
  refine ⟨fast_intersect_sorted A B hA hB, fast_intersect_mem_iff A B hA hB, ?_, ?_⟩
  · exact (fast_intersect_sorted A B hA hB).imp (fun h => ne_of_lt h)
  · intro hdis
    rw [List.eq_nil_iff_forall_not_mem]
    intro z hz
    exact hdis z ((fast_intersect_mem_iff A B hA hB z).mp hz)

/-- Witness for the C2 theorem at the concrete scenario of the spec. -/
theorem fast_intersect_spec_witness :
    ([1, 3, 5, 7] : List Int).Nodup ∧ ([3, 4, 5] : List Int).Nodup ∧
    (fast_intersect [1, 3, 5, 7] [3, 4, 5]).Sorted (· < ·) :=
  ⟨by decide, by decide,
    (fast_intersect_spec [1, 3, 5, 7] [3, 4, 5] (by decide) (by decide)).1⟩

/-- Claim C9: fast_intersect is commutative in its two arguments, with no
duplicate-freeness precondition: the sorted concatenation depends only on
the multiset of values. -/
theorem fast_intersect_comm (a b : List Int) :
    fast_intersect a b = fast_intersect b a := by
  unfold fast_intersect
  congr 1
  exact List.eq_of_perm_of_sorted
    ((List.mergeSort_perm _ _).trans (List.perm_append_comm.trans
      (List.mergeSort_perm _ _).symm))
    (List.sorted_mergeSort' _) (List.sorted_mergeSort' _)

/-- Claim C8: on a duplicate-free input, fast_intersect A A is A itself
sorted in ascending order (a permutation of A, strictly sorted). -/
theorem fast_intersect_self (A : List Int) (hA : A.Nodup) :
    fast_intersect A A = A.mergeSort (fun x y => decide (x ≤ y)) ∧
    (fast_intersect A A).Sorted (· < ·) ∧ List.Perm (fast_intersect A A) A := by
  have hms_nodup : (A.mergeSort (fun x y => decide (x ≤ y))).Nodup :=
    ((List.mergeSort_perm A _).symm).nodup hA
  have hms_sorted_lt : (A.mergeSort (fun x y => decide (x ≤ y))).Sorted (· < ·) :=
    ((List.sorted_mergeSort' A).and hms_nodup).imp
      (fun h => lt_of_le_of_ne h.1 h.2)
  have hmem : ∀ z, z ∈ fast_intersect A A ↔
      z ∈ A.mergeSort (fun x y => decide (x ≤ y)) := by
    intro z
    rw [fast_intersect_mem_iff A A hA hA z, (List.mergeSort_perm A _).mem_iff]
    simp
  have heq : fast_intersect A A = A.mergeSort (fun x y => decide (x ≤ y)) :=
    sorted_lt_eq_of_mem_iff (fast_intersect_sorted A A hA hA) hms_sorted_lt hmem
  exact ⟨heq, fast_intersect_sorted A A hA hA, heq ▸ List.mergeSort_perm A _⟩

/-- Witness for the C8 theorem. -/
theorem fast_intersect_self_witness :
    ([1, 3, 5, 7] : List Int).Nodup ∧
    fast_intersect [1, 3, 5, 7] [1, 3, 5, 7] =
      ([1, 3, 5, 7] : List Int).mergeSort (fun x y => decide (x ≤ y)) :=
  ⟨by decide, (fast_intersect_self [1, 3, 5, 7] (by decide)).1⟩

/-- Claim C3: for duplicate-free inputs, fast_setdiff returns exactly the
elements of a not appearing in b, in a's original order (a sublist of a);
empty a gives [] and empty b gives a unchanged. -/
theorem fast_setdiff_spec (a b : List Int) (ha : a.Nodup) (hb : b.Nodup) :
    (∀ z, z ∈ fast_setdiff a b ↔ z ∈ a ∧ z ∉ b) ∧
    (fast_setdiff a b).Sublist a ∧
    (a = [] → fast_setdiff a b = []) ∧
    (b = [] → fast_setdiff a b = a) := by
  refine ⟨?_, List.filter_sublist _, ?_, ?_⟩
  · intro z
    simp [fast_setdiff]
  · intro h; subst h; rfl
  · intro h; subst h; simp [fast_setdiff]

/-- Witness for the C3 theorem at the concrete scenario of the spec. -/
theorem fast_setdiff_spec_witness :
    ([1, 3, 5, 7] : List Int).Nodup ∧ ([3, 5] : List Int).Nodup ∧
    (fast_setdiff [1, 3, 5, 7] [3, 5]).Sublist [1, 3, 5, 7] :=
  ⟨by decide, by decide,
    (fast_setdiff_spec [1, 3, 5, 7] [3, 5] (by decide) (by decide)).2.1⟩

/-! Helper lemmas for the base-b conversions. -/

theorem ravelF_unravel (b : Nat) (hb : 0 < b) :
    ∀ (d n : Nat), n < b ^ d →
      ravelF b ((List.range d).map (fun k => n / b ^ k % b)) = n := by
  intro d
  induction d with
  | zero =>
    intro n hn
    rw [pow_zero] at hn
    have hn0 : n = 0 := by omega
    simp [hn0, ravelF]
  | succ d ih =>
    intro n hn
    rw [List.range_succ_eq_map, List.map_cons, List.map_map]
    have hmap : List.map ((fun k => n / b ^ k % b) ∘ Nat.succ) (List.range d)
        = List.map (fun k => n / b / b ^ k % b) (List.range d) := by
      apply List.map_congr_left
      intro k _
      simp only [Function.comp_apply]
      rw [Nat.div_div_eq_div_mul, ← pow_succ']
    rw [hmap]
    simp only [ravelF, pow_zero, Nat.div_one]
    have hdiv : n / b < b ^ d := by
      rw [Nat.div_lt_iff_lt_mul hb, ← pow_succ]
      exact hn
    rw [ih (n / b) hdiv]
    exact Nat.mod_add_div n b

theorem integer2baseb_some (i : List Int) (b d : Nat) :
    integer2baseb i b (some d) = integer2baseb_core i b d := rfl

theorem intDigits_length (x : Int) (b d : Nat) : (intDigits x b d).length = d := by
  unfold intDigits unravel_coords
  rw [List.length_reverse, List.length_map, List.length_map, List.length_range]

theorem intDigits_mem_range (x : Int) (b d : Nat) (hb : 0 < b) :
    ∀ c ∈ intDigits x b d, 0 ≤ c ∧ c < (b : Int) := by
  intro c hc
  unfold intDigits unravel_coords at hc
  rw [List.mem_reverse] at hc
  rcases List.mem_map.mp hc with ⟨m, hm, rfl⟩
  refine ⟨Int.natCast_nonneg _, ?_⟩
  rcases List.mem_map.mp hm with ⟨k, hk, rfl⟩
  exact_mod_cast Nat.mod_lt _ hb

theorem ravelF_intDigits (b d : Nat) (hb : 0 < b) (x : Int)
    (hx0 : 0 ≤ x) (hxd : x < (b : Int) ^ d) :
    ravelF b ((intDigits x b d).reverse.map Int.toNat) = x.toNat := by
  have h1 : (intDigits x b d).reverse
      = (unravel_coords x b d).map (fun c : Nat => (c : Int)) := by
    unfold intDigits
    rw [List.reverse_reverse]
  rw [h1, List.map_map]
  have h2 : (Int.toNat ∘ fun c : Nat => (c : Int)) = id := by
    funext c; simp
  rw [h2, List.map_id]
  unfold unravel_coords
  apply ravelF_unravel b hb d
  have hcast : ((b ^ d : Nat) : Int) = (b : Int) ^ d := by push_cast; rfl
  rw [← hcast] at hxd
  omega

theorem baseb2integer_map_intDigits (i : List Int) (b d : Nat) (hb : 0 < b)
    (hall : ∀ x ∈ i, 0 ≤ x ∧ x < (b : Int) ^ d) :
    baseb2integer (i.map (fun x => intDigits x b d)) b = some i := by
  cases i with
  | nil => rfl
  | cons x₀ tl =>
    unfold baseb2integer
    have hhead : ((List.map (fun x => intDigits x b d) (x₀ :: tl)).headD []).length = d := by
      simp [intDigits_length]
    have hchk : ((List.map (fun x => intDigits x b d) (x₀ :: tl)).all (fun row =>
        decide (row.length =
          ((List.map (fun x => intDigits x b d) (x₀ :: tl)).headD []).length) &&
        row.all (fun c => decide (0 ≤ c) && decide (c < (b : Int))))) = true := by
      rw [List.all_eq_true]
      intro row hrow
      rcases List.mem_map.mp hrow with ⟨x, hx, rfl⟩
      rw [Bool.and_eq_true]
      constructor
      · rw [hhead, intDigits_length]
        simp
      · rw [List.all_eq_true]
        intro c hcmem
        have := intDigits_mem_range x b d hb c hcmem
        simp only [Bool.and_eq_true, decide_eq_true_eq]
        exact this
    rw [if_pos hchk]
    congr 1
    rw [List.map_map]
    conv_rhs => rw [← List.map_id (x₀ :: tl)]
    apply List.map_congr_left
    intro x hx
    obtain ⟨hx0, hxd⟩ := hall x hx
    simp only [Function.comp_apply, id]
    rw [ravelF_intDigits b d hb x hx0 hxd]
    exact Int.toNat_of_nonneg hx0

/-- Claim C1: for every base b at least 2, dimension d at least 1, and list
of integers each in [0, b^d - 1], decoding the encoding with the same b and
d returns the input list: the two functions are exact inverses on that
range, element-wise. -/
theorem integer2baseb_roundtrip (i : List Int) (b d : Nat) (hb : 2 ≤ b) (hd : 1 ≤ d)
    (hi : (i.all fun x => decide (0 ≤ x) && decide (x < (b : Int) ^ d)) = true) :
    (integer2baseb i b (some d)).bind (fun M => baseb2integer M b) = some i := by
  have hd0 : ¬ d = 0 := by omega
  have h1 : integer2baseb i b (some d) = some (i.map (fun x => intDigits x b d)) := by
    rw [integer2baseb_some]
    unfold integer2baseb_core
    rw [if_neg hd0, if_pos hi]
  rw [h1, Option.some_bind]
  apply baseb2integer_map_intDigits i b d (by omega)
  intro x hx
  have := List.all_eq_true.mp hi x hx
  simpa using this

/-- Witness for the C1 theorem at the concrete scenario of the spec. -/
theorem integer2baseb_roundtrip_witness :
    2 ≤ 2 ∧ 1 ≤ 3 ∧
    (([5] : List Int).all fun x => decide (0 ≤ x) && decide (x < (2 : Int) ^ 3)) = true ∧
    (integer2baseb [5] 2 (some 3)).bind (fun M => baseb2integer M 2) = some [5] :=
  ⟨by decide, by decide, by decide,
    integer2baseb_roundtrip [5] 2 3 (by decide) (by decide) (by decide)⟩

/-! Digits of b^d - 1: every base-b digit is b - 1. -/

theorem pow_sub_one_digit (b d k : Nat) (hb : 2 ≤ b) (hk : k < d) :
    (b ^ d - 1) / b ^ k % b = b - 1 := by
  have hbk : 0 < b ^ k := pow_pos (by omega) k
  have hbe : 0 < b ^ (d - k - 1) := pow_pos (by omega) _
  have hsplit : b ^ d = b ^ k * (b * b ^ (d - k - 1)) := by
    rw [← pow_succ', ← pow_add]
    congr 1
    omega
  obtain ⟨q, hq⟩ : ∃ q, b * b ^ (d - k - 1) = q + 1 :=
    ⟨b * b ^ (d - k - 1) - 1, by
      have : 0 < b * b ^ (d - k - 1) := Nat.mul_pos (by omega) hbe
      omega⟩
  have hkey : b ^ d - 1 = b ^ k * q + (b ^ k - 1) := by
    have h1 : b ^ d = b ^ k * q + b ^ k := by rw [hsplit, hq]; ring
    omega
  rw [hkey, Nat.mul_add_div hbk, Nat.div_eq_of_lt (by omega), Nat.add_zero]
  obtain ⟨r, hr⟩ : ∃ r, b ^ (d - k - 1) = r + 1 := ⟨b ^ (d - k - 1) - 1, by omega⟩
  have hq2 : q = b * r + (b - 1) := by
    have h2 : b * b ^ (d - k - 1) = b * r + b := by rw [hr]; ring
    omega
  rw [hq2, Nat.mul_add_mod]
  exact Nat.mod_eq_of_lt (by omega)

theorem intDigits_pow_sub_one (b d : Nat) (hb : 2 ≤ b) :
    intDigits ((b : Int) ^ d - 1) b d = List.replicate d ((b : Int) - 1) := by
  have hpos : 0 < b ^ d := pow_pos (by omega) d
  have hcast : ((b ^ d : Nat) : Int) = (b : Int) ^ d := by push_cast; rfl
  have htn : ((b : Int) ^ d - 1).toNat = b ^ d - 1 := by
    rw [← hcast]
    omega
  unfold intDigits unravel_coords
  rw [htn]
  have hmap : (List.range d).map (fun k => (b ^ d - 1) / b ^ k % b)
      = List.replicate d (b - 1) := by
    have hlen : ((List.range d).map (fun k => (b ^ d - 1) / b ^ k % b)).length = d := by
      rw [List.length_map, List.length_range]
    have hmem : ∀ c ∈ (List.range d).map (fun k => (b ^ d - 1) / b ^ k % b), c = b - 1 := by
      intro c hc
      rcases List.mem_map.mp hc with ⟨k, hk, rfl⟩
      exact pow_sub_one_digit b d k hb (List.mem_range.mp hk)
    have h2 := List.eq_replicate_of_mem hmem
    rw [hlen] at h2
    exact h2
  rw [hmap, List.map_replicate, List.reverse_replicate]
  congr 1
  omega

/-- Claim C4: for base b at least 2 and explicit dimension d at least 1,
integer2baseb maps b^d - 1 to the row of d digits all equal to b - 1, and
fails (range error, modelled as none) on any input at least b^d instead of
silently wrapping. -/
theorem integer2baseb_boundary (b d : Nat) (x : Int) (hb : 2 ≤ b) (hd : 1 ≤ d)
    (hx : (b : Int) ^ d ≤ x) :
    integer2baseb [(b : Int) ^ d - 1] b (some d)
      = some [List.replicate d ((b : Int) - 1)] ∧
    integer2baseb [x] b (some d) = none := by
  have hd0 : ¬ d = 0 := by omega
  have hbpos : (0 : Int) < (b : Int) ^ d := by
    have : (0 : Int) < (b : Int) := by exact_mod_cast (by omega : 0 < b)
    positivity
  constructor
  · rw [integer2baseb_some]
    unfold integer2baseb_core
    rw [if_neg hd0]
    have hchk : (([(b : Int) ^ d - 1]).all fun y =>
        decide (0 ≤ y) && decide (y < (b : Int) ^ d)) = true := by
      rw [List.all_eq_true]
      intro y hy
      rw [List.mem_singleton] at hy
      subst hy
      rw [Bool.and_eq_true, decide_eq_true_eq, decide_eq_true_eq]
      omega
    rw [if_pos hchk, List.map_cons, List.map_nil, intDigits_pow_sub_one b d hb]
  · rw [integer2baseb_some]
    unfold integer2baseb_core
    rw [if_neg hd0]
    have hchk : (([x]).all fun y =>
        decide (0 ≤ y) && decide (y < (b : Int) ^ d)) = false := by
      rw [List.all_eq_false]
      refine ⟨x, List.mem_singleton_self x, ?_⟩
      rw [Bool.and_eq_true, decide_eq_true_eq, decide_eq_true_eq]
      intro h
      omega
    rw [hchk]
    simp

/-- Witness for the C4 theorem at b = 2, d = 3, x = 8. -/
theorem integer2baseb_boundary_witness :
    2 ≤ 2 ∧ 1 ≤ 3 ∧ (((2 : Nat) : Int) ^ 3 ≤ 8) ∧
    integer2baseb [((2 : Nat) : Int) ^ 3 - 1] 2 (some 3)
      = some [List.replicate 3 (((2 : Nat) : Int) - 1)] ∧
    integer2baseb [8] 2 (some 3) = none :=
  ⟨by decide, by decide, by decide,
    (integer2baseb_boundary 2 3 8 (by decide) (by decide) (by decide)).1,
    (integer2baseb_boundary 2 3 8 (by decide) (by decide) (by decide)).2⟩

/-! Failure helpers: an out-of-range entry makes either conversion
return none (the model of the ValueError raised by np.unravel_index and
np.ravel_multi_index). -/

theorem integer2baseb_core_none_of_bad (i : List Int) (b d : Nat) (x : Int)
    (hx : x ∈ i) (hbad : d ≠ 0 → ¬ (0 ≤ x ∧ x < (b : Int) ^ d)) :
    integer2baseb_core i b d = none := by
  unfold integer2baseb_core
  by_cases hd : d = 0
  · rw [if_pos hd]
  · rw [if_neg hd]
    have hfail : (i.all fun y => decide (0 ≤ y) && decide (y < (b : Int) ^ d)) = false := by
      rw [List.all_eq_false]
      refine ⟨x, hx, ?_⟩
      rw [Bool.and_eq_true, decide_eq_true_eq, decide_eq_true_eq]
      exact hbad hd
    rw [hfail]
    simp

theorem baseb2integer_none_of_bad (I0 : List (List Int)) (b : Nat) (r : List Int)
    (c : Int) (hr : r ∈ I0) (hc : c ∈ r) (hbad : ¬ (0 ≤ c ∧ c < (b : Int))) :
    baseb2integer I0 b = none := by
  unfold baseb2integer
  have hrowfail : (r.all fun y => decide (0 ≤ y) && decide (y < (b : Int))) = false := by
    rw [List.all_eq_false]
    refine ⟨c, hc, ?_⟩
    rw [Bool.and_eq_true, decide_eq_true_eq, decide_eq_true_eq]
    exact hbad
  have hfail : (I0.all fun row =>
      decide (row.length = (I0.headD []).length) &&
      row.all fun y => decide (0 ≤ y) && decide (y < (b : Int))) = false := by
    rw [List.all_eq_false]
    refine ⟨r, hr, ?_⟩
    rw [hrowfail, Bool.and_false]
    simp
  rw [hfail]
  simp

/-- Claim C5: for base b at least 2, baseb2integer returns none (range
error) on a matrix containing a digit outside [0, b-1], and returns a
value on any rectangular matrix whose digits all lie in [0, b-1]. -/
theorem baseb2integer_digit_range (b : Nat) (I0 J0 : List (List Int)) (r : List Int)
    (c : Int) (hb : 2 ≤ b) (hr : r ∈ I0) (hc : c ∈ r)
    (hbad : c < 0 ∨ (b : Int) ≤ c)
    (hgood : (J0.all fun row =>
        decide (row.length = (J0.headD []).length) &&
        row.all fun y => decide (0 ≤ y) && decide (y < (b : Int))) = true) :
    baseb2integer I0 b = none ∧ (baseb2integer J0 b).isSome = true := by
  constructor
  · apply baseb2integer_none_of_bad I0 b r c hr hc
    rcases hbad with h | h
    · intro hcontra; omega
    · intro hcontra; omega
  · unfold baseb2integer
    rw [if_pos hgood]
    rfl

/-- Witness for the C5 theorem: digit 2 is out of range in base 2, while
the matrix [[1,0,1]] is accepted. -/
theorem baseb2integer_digit_range_witness :
    2 ≤ 2 ∧ ([(2 : Int), 0] ∈ [[(2 : Int), 0]]) ∧ ((2 : Int) ∈ [(2 : Int), 0]) ∧
    ((2 : Int) < 0 ∨ ((2 : Nat) : Int) ≤ 2) ∧
    (([[(1 : Int), 0, 1]] : List (List Int)).all fun row =>
        decide (row.length = (([[(1 : Int), 0, 1]] : List (List Int)).headD []).length) &&
        row.all fun y => decide (0 ≤ y) && decide (y < ((2 : Nat) : Int))) = true ∧
    baseb2integer [[(2 : Int), 0]] 2 = none ∧
    (baseb2integer [[(1 : Int), 0, 1]] 2).isSome = true :=
  ⟨by decide, by decide, by decide, by decide, by decide,
    (baseb2integer_digit_range 2 [[2, 0]] [[1, 0, 1]] [2, 0] 2
      (by decide) (by decide) (by decide) (by decide) (by decide)).1,
    (baseb2integer_digit_range 2 [[2, 0]] [[1, 0, 1]] [2, 0] 2
      (by decide) (by decide) (by decide) (by decide) (by decide)).2⟩

/-! Behaviour at degenerate bases. With b = 1 and an explicit dimension,
np.unravel_index accepts the flat index 0 into the all-ones grid and both
functions return all-zero results instead of raising. -/

theorem ravelF_zeros (b : Nat) :
    ∀ (l : List Nat), (∀ c ∈ l, c = 0) → ravelF b l = 0 := by
  intro l
  induction l with
  | nil => intro _; rfl
  | cons c cs ih =>
    intro h
    have hc : c = 0 := h c (List.mem_cons_self c cs)
    have hcs : ravelF b cs = 0 := ih (fun y hy => h y (List.mem_cons_of_mem c hy))
    simp [ravelF, hc, hcs]

theorem intDigits_base_one (x : Int) (d : Nat) :
    intDigits x 1 d = List.replicate d 0 := by
  unfold intDigits unravel_coords
  have hmem : ∀ c ∈ (List.range d).map (fun k => x.toNat / 1 ^ k % 1), c = 0 := by
    intro c hc
    rcases List.mem_map.mp hc with ⟨k, _, rfl⟩
    exact Nat.mod_one _
  have h2 := List.eq_replicate_of_mem hmem
  have hlen : ((List.range d).map (fun k => x.toNat / 1 ^ k % 1)).length = d := by
    rw [List.length_map, List.length_range]
  rw [hlen] at h2
  rw [h2, List.map_replicate, List.reverse_replicate]
  rfl

theorem integer2baseb_one_zero (i : List Int) (d : Nat) (hd : 1 ≤ d)
    (hz : (i.all fun y => decide (y = 0)) = true) :
    integer2baseb i 1 (some d) = some (i.map fun _ => List.replicate d 0) := by
  rw [integer2baseb_some]
  unfold integer2baseb_core
  rw [if_neg (by omega : ¬ d = 0)]
  have hchk : (i.all fun x => decide (0 ≤ x) && decide (x < ((1 : Nat) : Int) ^ d)) = true := by
    rw [List.all_eq_true]
    intro y hy
    have hy0 : y = 0 := by
      have := List.all_eq_true.mp hz y hy
      simpa using this
    subst hy0
    rw [Bool.and_eq_true, decide_eq_true_eq, decide_eq_true_eq]
    norm_num
  rw [if_pos hchk]
  congr 1
  apply List.map_congr_left
  intro x _
  exact intDigits_base_one x d

theorem baseb2integer_one_zero (I0 : List (List Int))
    (hz : (I0.all fun row =>
        decide (row.length = (I0.headD []).length) &&
        row.all fun y => decide (y = 0)) = true) :
    baseb2integer I0 1 = some (I0.map fun _ => (0 : Int)) := by
  unfold baseb2integer
  have hchk : (I0.all fun row =>
      decide (row.length = (I0.headD []).length) &&
      row.all fun c => decide (0 ≤ c) && decide (c < ((1 : Nat) : Int))) = true := by
    rw [List.all_eq_true]
    intro row hrow
    have h1 := List.all_eq_true.mp hz row hrow
    rw [Bool.and_eq_true] at h1 ⊢
    refine ⟨h1.1, ?_⟩
    rw [List.all_eq_true]
    intro c hcmem
    have hc0 : c = 0 := by
      have := List.all_eq_true.mp h1.2 c hcmem
      simpa using this
    subst hc0
    rw [Bool.and_eq_true, decide_eq_true_eq, decide_eq_true_eq]
    norm_num
  rw [if_pos hchk]
  congr 1
  apply List.map_congr_left
  intro row hrow
  have h1 := List.all_eq_true.mp hz row hrow
  rw [Bool.and_eq_true] at h1
  have hzeros : ∀ c ∈ row.reverse.map Int.toNat, c = 0 := by
    intro c hc
    rcases List.mem_map.mp hc with ⟨y, hy, rfl⟩
    have hy0 : y = 0 := by
      have := List.all_eq_true.mp h1.2 y (List.mem_reverse.mp hy)
      simpa using this
    rw [hy0]
    rfl
  rw [ravelF_zeros 1 _ hzeros]
  rfl

/-- Counterexample to claim C7 as stated: with the degenerate base b = 1
(which is smaller than 2) and an explicit dimension, an all-zero input
makes both functions return a value instead of failing fast. -/
theorem degenerate_base_returns :
    integer2baseb [(0 : Int)] 1 (some 1) = some [[0]] ∧
    baseb2integer [[(0 : Int)]] 1 = some [0] := by decide

/-- Claim C7 (amended): calls with a negative input integer, an input not
representable at the degenerate base, or base 0 fail (none); the one
exception is base 1, where an explicit dimension with all input integers
zero (respectively a rectangular all-zero digit matrix) returns all-zero
digit rows (respectively zero integers) instead of failing. -/
theorem degenerate_input_behavior (b d : Nat) (i : List Int) (I0 : List (List Int))
    (x : Int) (r : List Int) (c : Int) (hx : x ∈ i) (hr : r ∈ I0) (hc : c ∈ r) :
    (x < 0 → integer2baseb i b (some d) = none) ∧
    integer2baseb i 0 (some d) = none ∧
    (x ≠ 0 → integer2baseb i 1 (some d) = none) ∧
    (1 ≤ d → (i.all fun y => decide (y = 0)) = true →
      integer2baseb i 1 (some d) = some (i.map fun _ => List.replicate d 0)) ∧
    (c < 0 → baseb2integer I0 b = none) ∧
    baseb2integer I0 0 = none ∧
    (c ≠ 0 → baseb2integer I0 1 = none) ∧
    ((I0.all fun row =>
        decide (row.length = (I0.headD []).length) &&
        row.all fun y => decide (y = 0)) = true →
      baseb2integer I0 1 = some (I0.map fun _ => (0 : Int))) := by
  refine ⟨?_, ?_, ?_, ?_, ?_, ?_, ?_, ?_⟩
  · intro hneg
    rw [integer2baseb_some]
    exact integer2baseb_core_none_of_bad i b d x hx (fun _ hcon => by omega)
  · rw [integer2baseb_some]
    apply integer2baseb_core_none_of_bad i 0 d x hx
    intro hd hcon
    rw [Nat.cast_zero, zero_pow hd] at hcon
    omega
  · intro hne
    rw [integer2baseb_some]
    apply integer2baseb_core_none_of_bad i 1 d x hx
    intro _ hcon
    rw [Nat.cast_one, one_pow] at hcon
    omega
  · exact integer2baseb_one_zero i d
  · intro hneg
    exact baseb2integer_none_of_bad I0 b r c hr hc (fun hcon => by omega)
  · apply baseb2integer_none_of_bad I0 0 r c hr hc
    intro hcon
    omega
  · intro hne
    apply baseb2integer_none_of_bad I0 1 r c hr hc
    intro hcon
    omega
  · exact baseb2integer_one_zero I0

/-- Witness for the amended C7 theorem at base 1 with all-zero input. -/
theorem degenerate_input_behavior_witness :
    ((0 : Int) ∈ [(0 : Int)]) ∧ ([(0 : Int)] ∈ [[(0 : Int)]]) ∧
    ((0 : Int) ∈ [(0 : Int)]) ∧
    integer2baseb [(0 : Int)] 1 (some 1) = some [[0]] :=
  ⟨by decide, by decide, by decide, by
    have h := (degenerate_input_behavior 1 1 [(0 : Int)] [[(0 : Int)]] 0 [0] 0
      (by decide) (by decide) (by decide)).2.2.2.1 (by decide) (by decide)
    simpa using h⟩

/-- Claim C10: when d is not supplied and every input integer is 0 (so the
maximum is 0), integer2baseb derives the dimension 0 and not 1, so the
call produces no one-digit all-zero row; in the model the d = 0 result is
none, matching the ValueError np.fliplr raises on the 1-dimensional
intermediate array. -/
theorem integer2baseb_derived_zero (b : Nat) (i : List Int) (hb : 2 ≤ b)
    (hne : i ≠ []) (hz : (i.all fun y => decide (y = 0)) = true) :
    derived_dim b 0 = 0 ∧ derived_dim b 0 ≠ 1 ∧ integer2baseb i b none = none := by
  have h0 : derived_dim b 0 = 0 := by
    unfold derived_dim
    rw [Int.toNat_zero, Nat.zero_add, Nat.clog_one_right]
  refine ⟨h0, by omega, ?_⟩
  unfold integer2baseb
  cases hmax : i.max? with
  | none => rfl
  | some m =>
    have hm : m ∈ i := List.max?_mem (fun a b => max_choice a b) hmax
    have hm0 : m = 0 := by
      have := List.all_eq_true.mp hz m hm
      simpa using this
    subst hm0
    show (if (0 : Int) < 0 then none
      else integer2baseb_core i b (derived_dim b 0)) = none
    rw [if_neg (by omega : ¬ (0 : Int) < 0), h0]
    unfold integer2baseb_core
    rw [if_pos rfl]

/-- Witness for the C10 theorem. -/
theorem integer2baseb_derived_zero_witness :
    2 ≤ 2 ∧ ([(0 : Int), 0] ≠ []) ∧
    (([(0 : Int), 0]).all fun y => decide (y = 0)) = true ∧
    integer2baseb [(0 : Int), 0] 2 none = none :=
  ⟨by decide, by decide, by decide,
    (integer2baseb_derived_zero 2 [0, 0] (by decide) (by decide) (by decide)).2.2⟩
